import Mathlib

/-!
Verification of the EngPal backend (Go) against its natural-language
specification.  The Go source is shallowly embedded: Go strings are Lean
`String` (character lists), Go `int` is `Int` or `Nat` where the handler
validation guarantees non-negativity, Go maps are association lists with
insert-overwrite semantics, `time.Time` is an integer timestamp, and the
external Gemini upstream is passed in as an explicit parameter.
-/

namespace EngPal

/-! ## Whitespace and `strings.Fields` / `strings.TrimSpace`

Model of Go `unicode.IsSpace`: tab through carriage return, space, NEL,
NBSP, plus the Unicode White_Space code points. -/

def isSpace (c : Char) : Bool :=
  let n := c.toNat
  n == 9 || n == 10 || n == 11 || n == 12 || n == 13 || n == 32 ||
  n == 0x85 || n == 0xA0 || n == 0x1680 || (0x2000 ≤ n && n ≤ 0x200A) ||
  n == 0x2028 || n == 0x2029 || n == 0x202F || n == 0x205F || n == 0x3000

/-- Model of Go `strings.Fields` on character lists: split around maximal
runs of whitespace, returning the maximal non-whitespace runs.  `cur` holds
the (reversed) token currently being scanned. -/
def fieldsAux (cur : List Char) (l : List Char) : List (List Char) :=
  match l with
  | [] => if cur.isEmpty then [] else [cur.reverse]
  | c :: cs =>
    if isSpace c then
      if cur.isEmpty then fieldsAux [] cs else cur.reverse :: fieldsAux [] cs
    else fieldsAux (c :: cur) cs

/-- The maximal non-whitespace runs of a character list. -/
def fieldsList (l : List Char) : List (List Char) := fieldsAux [] l

/-- Go `strings.Fields` on strings. -/
def stringsFields (s : String) : List String :=
  (fieldsList s.toList).map fun l => String.mk l

/-- Model of Go `strings.TrimSpace` on character lists. -/
def trimSpaceList (l : List Char) : List Char :=
  ((l.dropWhile isSpace).reverse.dropWhile isSpace).reverse

/-- Go `strings.TrimSpace`. -/
def trimSpace (s : String) : String :=
  String.mk (trimSpaceList s.toList)

/-- Embeds `utils.GetTotalWords` (utils package):
`return len(strings.Fields(input))`. -/
def GetTotalWords (input : String) : Nat :=
  (stringsFields input).length

/-- Embeds the review handler's `getTotalWords`:
`if strings.TrimSpace(input) == "" { return 0 }; return len(strings.Fields(input))`. -/
def getTotalWords (input : String) : Nat :=
  if trimSpace input = "" then 0 else (stringsFields input).length

/-- Specification-side token count: the number of maximal
whitespace-delimited tokens, counted with an inside-a-token flag. -/
def numTokensAux (inTok : Bool) (l : List Char) : Nat :=
  match l with
  | [] => 0
  | c :: cs =>
    if isSpace c then numTokensAux false cs
    else if inTok then numTokensAux true cs else 1 + numTokensAux true cs

/-- Number of maximal whitespace-delimited tokens of a character list. -/
def numTokens (l : List Char) : Nat := numTokensAux false l

/-! ### Word-count lemmas -/

theorem length_fieldsAux (cur : List Char) (l : List Char) :
    (fieldsAux cur l).length =
      numTokensAux (!cur.isEmpty) l + (if cur.isEmpty then 0 else 1) := by
  induction l generalizing cur with
  | nil => cases cur <;> simp [fieldsAux, numTokensAux, List.isEmpty]
  | cons c cs ih =>
    by_cases h : isSpace c
    · cases cur <;>
        simp [fieldsAux, numTokensAux, h, List.isEmpty, ih, Nat.add_comm]
    · cases cur <;> simp [fieldsAux, numTokensAux, h, List.isEmpty, ih]
      omega

theorem length_fieldsList_eq_numTokens (l : List Char) :
    (fieldsList l).length = numTokens l := by
  rw [fieldsList, numTokens, length_fieldsAux]
  simp [List.isEmpty]

theorem fieldsAux_all_space (l : List Char)
    (h : ∀ c ∈ l, isSpace c) : fieldsAux [] l = [] := by
  induction l with
  | nil => simp [fieldsAux]
  | cons c cs ih =>
    rw [fieldsAux]
    rw [if_pos (h c (List.mem_cons_self c cs))]
    simpa using ih fun x hx => h x (List.mem_cons_of_mem c hx)

theorem fieldsList_all_space (l : List Char) (h : ∀ c ∈ l, isSpace c) :
    fieldsList l = [] :=
  fieldsAux_all_space l h

theorem numTokensAux_all_space (b : Bool) (l : List Char)
    (h : ∀ c ∈ l, isSpace c) : numTokensAux b l = 0 := by
  induction l generalizing b with
  | nil => rfl
  | cons c cs ih =>
    rw [numTokensAux, if_pos (h c (List.mem_cons_self c cs))]
    exact ih false fun x hx => h x (List.mem_cons_of_mem c hx)

theorem numTokensAux_false_append_space (l₁ l₂ : List Char)
    (h : ∀ c ∈ l₁, isSpace c) :
    numTokensAux false (l₁ ++ l₂) = numTokensAux false l₂ := by
  induction l₁ with
  | nil => rfl
  | cons c cs ih =>
    rw [List.cons_append, numTokensAux,
      if_pos (h c (List.mem_cons_self c cs))]
    exact ih fun x hx => h x (List.mem_cons_of_mem c hx)

theorem numTokensAux_append_space_right (b : Bool) (l₁ l₂ : List Char)
    (h : ∀ c ∈ l₂, isSpace c) :
    numTokensAux b (l₁ ++ l₂) = numTokensAux b l₁ := by
  induction l₁ generalizing b with
  | nil => simp [numTokensAux_all_space _ _ h, numTokensAux]
  | cons c cs ih =>
    by_cases hc : isSpace c
    · simp [numTokensAux, hc, ih]
    · cases b <;> simp [numTokensAux, hc, ih]

/-- Trimming commutes with token counting. -/
theorem numTokens_pad (s : List Char) (l₁ l₂ : List Char)
    (h₁ : ∀ c ∈ l₁, isSpace c) (h₂ : ∀ c ∈ l₂, isSpace c) :
    numTokens (l₁ ++ s ++ l₂) = numTokens s := by
  rw [numTokens, numTokens, List.append_assoc,
    numTokensAux_false_append_space _ _ h₁,
    numTokensAux_append_space_right _ _ _ h₂]

theorem allSpace_of_trimSpace_empty (s : String) (h : trimSpace s = "") :
    ∀ c ∈ s.toList, isSpace c := by
  have hl : trimSpaceList s.toList = [] := congrArg String.toList h
  rw [trimSpaceList] at hl
  have h2 : (s.toList.dropWhile isSpace).reverse.dropWhile isSpace = [] := by
    simpa using congrArg List.reverse hl
  have h4 : ∀ c ∈ s.toList.dropWhile isSpace, isSpace c := by
    intro c hc
    exact List.dropWhile_eq_nil_iff.mp h2 c (List.mem_reverse.mpr hc)
  intro c hc
  rw [← List.takeWhile_append_dropWhile (p := isSpace) (l := s.toList)] at hc
  rcases List.mem_append.mp hc with h5 | h5
  · exact List.mem_takeWhile_imp h5
  · exact h4 c h5

theorem GetTotalWords_eq_numTokens (s : String) :
    GetTotalWords s = numTokens s.toList := by
  rw [GetTotalWords, stringsFields, List.length_map,
    length_fieldsList_eq_numTokens]

theorem getTotalWords_eq_numTokens (s : String) :
    getTotalWords s = numTokens s.toList := by
  rw [getTotalWords]
  by_cases h : trimSpace s = ""
  · rw [if_pos h, numTokens,
      numTokensAux_all_space false _ (allSpace_of_trimSpace_empty s h)]
  · rw [if_neg h, stringsFields, List.length_map,
      length_fieldsList_eq_numTokens]

/-- **C4.** The word-count functions return the number of maximal
whitespace-delimited tokens, leading/trailing whitespace has no effect,
and empty or whitespace-only input yields 0. -/
theorem wordCount_spec (s : String) :
    GetTotalWords s = numTokens s.toList ∧
    getTotalWords s = numTokens s.toList ∧
    (∀ w₁ w₂ : String, (∀ c ∈ w₁.toList, isSpace c) →
      (∀ c ∈ w₂.toList, isSpace c) →
      getTotalWords (w₁ ++ s ++ w₂) = getTotalWords s) ∧
    ((∀ c ∈ s.toList, isSpace c) → getTotalWords s = 0) := by
  refine ⟨GetTotalWords_eq_numTokens s, getTotalWords_eq_numTokens s, ?_, ?_⟩
  · intro w₁ w₂ h₁ h₂
    rw [getTotalWords_eq_numTokens, getTotalWords_eq_numTokens]
    have : (w₁ ++ s ++ w₂).toList = w₁.toList ++ s.toList ++ w₂.toList := by
      simp
    rw [this]
    exact numTokens_pad s.toList w₁.toList w₂.toList h₁ h₂
  · intro h
    rw [getTotalWords_eq_numTokens, numTokens, numTokensAux_all_space false _ h]

/-- **C4 witness.** Concrete instances of `wordCount_spec`: a two-token
string, padding by whitespace, and a whitespace-only string. -/
theorem wordCount_spec_witness :
    getTotalWords (" " ++ "hello world" ++ "  ") = getTotalWords "hello world" ∧
    getTotalWords "  \t " = 0 ∧
    GetTotalWords "hello world" = numTokens "hello world".toList :=
  ⟨(wordCount_spec "hello world").2.2.1 " " "  " (by decide) (by decide),
   (wordCount_spec "  \t ").2.2.2 (by decide),
   (wordCount_spec "hello world").1⟩

/-- **C9.** The two word-count implementations agree on every input: the
handler's extra empty-after-trim guard never changes the result. -/
theorem getTotalWords_extensional_eq (s : String) :
    GetTotalWords s = getTotalWords s := by
  rw [GetTotalWords_eq_numTokens, getTotalWords_eq_numTokens]

/-! ## TTL cache

Embeds the `cache` / `reviewCache` maps (`map[string]cacheItem`) and the
handlers' lookup condition
`item, found := cache[key]; found && item.ExpiresAt.After(now)`.
`time.Time` is modelled as an integer timestamp. -/

structure cacheItem (α : Type) where
  Data : α
  ExpiresAt : Int

/-- The process-wide cache map, as a partial function from keys. -/
def Cache (α : Type) : Type := String → Option (cacheItem α)

/-- Embeds `cache[cacheKey] = cacheItem{Data: v, ExpiresAt: exp}`. -/
def cacheStore {α : Type} (c : Cache α) (k : String) (v : α)
    (exp : Int) : Cache α :=
  fun k2 => if k2 = k then some ⟨v, exp⟩ else c k2

/-- Embeds the handlers' cache hit condition: the value is served iff the
key is present and `item.ExpiresAt.After(now)` holds. -/
def cacheLookup {α : Type} (c : Cache α) (k : String) (now : Int) :
    Option α :=
  match c k with
  | some item => if now < item.ExpiresAt then some item.Data else none
  | none => none

/-- Embeds `ClearReviewCache`: `reviewCache = make(map[string]reviewCacheItem)`,
a wholesale replacement by an empty map. -/
def clearReviewCache {α : Type} (_ : Cache α) : Cache α := fun _ => none

/-- **C5.** Storing `v` under `k` and looking `k` up strictly before the
stored expiry returns exactly `v`; looking up at or after the expiry is a
cache miss. -/
theorem cache_roundtrip {α : Type} (c : Cache α) (k : String) (v : α)
    (exp t : Int) :
    (t < exp → cacheLookup (cacheStore c k v exp) k t = some v) ∧
    (exp ≤ t → cacheLookup (cacheStore c k v exp) k t = none) := by
  constructor
  · intro h
    simp [cacheLookup, cacheStore, h]
  · intro h
    simp [cacheLookup, cacheStore, Int.not_lt.mpr h]

/-- **C5 witness.** Concrete round trip through the cache. -/
theorem cache_roundtrip_witness :
    cacheLookup (cacheStore (fun _ => none : Cache Nat) "key" 42 100) "key" 99 =
      some 42 ∧
    cacheLookup (cacheStore (fun _ => none : Cache Nat) "key" 42 100) "key" 100 =
      none :=
  ⟨(cache_roundtrip (fun _ => none) "key" 42 100 99).1 (by decide),
   (cache_roundtrip (fun _ => none) "key" 42 100 100).2 (by decide)⟩

/-- **C8.** After the cache-clear operation, looking up any previously
stored key is a miss. -/
theorem clearReviewCache_miss {α : Type} (c : Cache α) (k : String)
    (item : cacheItem α) (t : Int) (_h : c k = some item) :
    cacheLookup (clearReviewCache c) k t = none := by
  simp [cacheLookup, clearReviewCache]

/-- **C8 witness.** Clearing after a concrete store yields a miss. -/
theorem clearReviewCache_miss_witness :
    cacheLookup
      (clearReviewCache (cacheStore (fun _ => none : Cache Nat) "key" 7 100))
      "key" 0 = none :=
  clearReviewCache_miss (cacheStore (fun _ => none) "key" 7 100) "key"
    ⟨7, 100⟩ 0 (by simp [cacheStore])

/-! ## Quiz data model and validation (`assignment_handler.go`) -/

/-- Embeds the handler's `Quiz` struct.  The Go field `Type` is rendered
`QType` because `Type` is a Lean keyword. -/
structure Quiz where
  ID : Int
  QType : String
  Question : String
  Answer : String
  Options : List String
  CorrectIndex : Int
  Explanation : String
deriving DecidableEq

/-- Embeds `isValidQuiz`: type-specific shape validation of a candidate
quiz item. -/
def isValidQuiz (quiz : Quiz) : Bool :=
  if quiz.Question = "" then false
  else
    match quiz.QType with
    | "Multiple Choice" =>
        decide (2 ≤ quiz.Options.length) && decide (0 ≤ quiz.CorrectIndex) &&
        decide (quiz.CorrectIndex < (quiz.Options.length : Int))
    | "Fill in the Blank" => !(quiz.Answer == "")
    | "Short Answer" => !(quiz.Answer == "")
    | "Essay" => true
    | _ => false

/-- **C3.** A "Multiple Choice" candidate with non-empty question text is
accepted iff it has at least 2 options and an in-range correct index. -/
theorem isValidQuiz_multipleChoice_iff (quiz : Quiz)
    (hT : quiz.QType = "Multiple Choice") (hQ : quiz.Question ≠ "") :
    isValidQuiz quiz = true ↔
      (2 ≤ quiz.Options.length ∧ 0 ≤ quiz.CorrectIndex ∧
        quiz.CorrectIndex < (quiz.Options.length : Int)) := by
  rw [isValidQuiz, if_neg hQ, hT]
  simp [and_assoc]

/-- **C3 witness.** Concrete instances: a 2-option item with
`correct_index = 0` is accepted; a 1-option item is discarded. -/
theorem isValidQuiz_multipleChoice_iff_witness :
    isValidQuiz ⟨0, "Multiple Choice", "Pick one", "", ["a", "b"], 0, ""⟩ =
      true ∧
    isValidQuiz ⟨0, "Multiple Choice", "Pick one", "", ["a"], 0, ""⟩ =
      false :=
  ⟨(isValidQuiz_multipleChoice_iff
      ⟨0, "Multiple Choice", "Pick one", "", ["a", "b"], 0, ""⟩ rfl
      (by decide)).mpr (by decide),
   by
    have h := (isValidQuiz_multipleChoice_iff
      ⟨0, "Multiple Choice", "Pick one", "", ["a"], 0, ""⟩ rfl (by decide)).not
    simp only [Bool.not_eq_true] at h
    exact h.mpr (by decide)⟩

/-! ## Quiz assembly (`generateQuizzesWithGemini`) -/

/-- Embeds the ID-assignment loop
`for i := range quizzes { quizzes[i].ID = i + 1 }`, started at `n = 1`. -/
def assignQuizIDs (n : Int) : List Quiz → List Quiz
  | [] => []
  | q :: qs => { q with ID := n } :: assignQuizIDs (n + 1) qs

/-- Embeds `if len(quizzes) < req.TotalQuestions`: append the additional
quizzes when the second upstream call succeeded (`err == nil`), keep the
parsed list unchanged when it failed. -/
def backfillQuizzes (totalQuestions : Nat) (parsed : List Quiz)
    (additional : Option (List Quiz)) : List Quiz :=
  if parsed.length < totalQuestions then
    match additional with
    | some more => parsed ++ more
    | none => parsed
  else parsed

/-- Embeds `if len(quizzes) > req.TotalQuestions { quizzes = quizzes[:req.TotalQuestions] }`. -/
def truncateQuizzes (totalQuestions : Nat) (qs : List Quiz) : List Quiz :=
  if totalQuestions < qs.length then qs.take totalQuestions else qs

/-- Embeds the post-upstream logic of `generateQuizzesWithGemini`: `parsed`
is the list parsed from the first Gemini call; `additional` is the result
of `generateAdditionalQuizzes`.  Backfill, truncate, then assign fresh
1-based IDs. -/
def assembleQuizzes (totalQuestions : Nat) (parsed : List Quiz)
    (additional : Option (List Quiz)) : List Quiz :=
  assignQuizIDs 1 (truncateQuizzes totalQuestions
    (backfillQuizzes totalQuestions parsed additional))

theorem length_assignQuizIDs (n : Int) (qs : List Quiz) :
    (assignQuizIDs n qs).length = qs.length := by
  induction qs generalizing n with
  | nil => rfl
  | cons q qs ih => simp [assignQuizIDs, ih]

theorem assignQuizIDs_get (n : Int) (qs : List Quiz) (i : Nat)
    (h : i < (assignQuizIDs n qs).length) :
    ((assignQuizIDs n qs).get ⟨i, h⟩).ID = n + i := by
  induction qs generalizing n i with
  | nil => simp [assignQuizIDs] at h
  | cons q qs ih =>
    cases i with
    | zero => simp [assignQuizIDs]
    | succ j =>
      have hj : j < (assignQuizIDs (n + 1) qs).length := by
        simpa [assignQuizIDs] using h
      have := ih (n + 1) j hj
      simp only [assignQuizIDs, List.get_cons_succ]
      rw [this]
      push_cast
      ring

theorem length_truncateQuizzes_le (totalQuestions : Nat) (qs : List Quiz) :
    (truncateQuizzes totalQuestions qs).length ≤ totalQuestions := by
  rw [truncateQuizzes]
  split
  · simp
  · omega

/-- **C7.** The assembled quiz list never exceeds the requested total, and
the item at position `i` carries the fresh identifier `i + 1`. -/
theorem assembleQuizzes_spec (totalQuestions : Nat) (parsed : List Quiz)
    (additional : Option (List Quiz)) :
    (assembleQuizzes totalQuestions parsed additional).length ≤
      totalQuestions ∧
    (∀ i (h : i < (assembleQuizzes totalQuestions parsed additional).length),
      ((assembleQuizzes totalQuestions parsed additional).get ⟨i, h⟩).ID =
        i + 1) := by
  constructor
  · rw [assembleQuizzes, length_assignQuizIDs]
    exact length_truncateQuizzes_le _ _
  · intro i h
    have hg := assignQuizIDs_get 1
      (truncateQuizzes totalQuestions
        (backfillQuizzes totalQuestions parsed additional)) i h
    exact hg.trans (by ring)

/-- **C7 witness.** Three parsed quizzes truncated to a requested total of
two, with IDs 1 and 2 in final order. -/
theorem assembleQuizzes_spec_witness :
    (assembleQuizzes 2
        [⟨0, "Essay", "q1", "", [], 0, ""⟩, ⟨0, "Essay", "q2", "", [], 0, ""⟩,
         ⟨0, "Essay", "q3", "", [], 0, ""⟩] none).length ≤ 2 ∧
    ((assembleQuizzes 2
        [⟨0, "Essay", "q1", "", [], 0, ""⟩, ⟨0, "Essay", "q2", "", [], 0, ""⟩,
         ⟨0, "Essay", "q3", "", [], 0, ""⟩] none).get ⟨1, by decide⟩).ID = 2 :=
  ⟨(assembleQuizzes_spec 2 _ none).1,
   by
    have h := (assembleQuizzes_spec 2
      [⟨0, "Essay", "q1", "", [], 0, ""⟩, ⟨0, "Essay", "q2", "", [], 0, ""⟩,
       ⟨0, "Essay", "q3", "", [], 0, ""⟩] none).2 1 (by decide)
    simpa using h⟩

/-! ## Question-type distribution (`distributeQuestionTypes`)

Go's `map[string]int` is modelled as an association list with unique keys
and insert-overwrite semantics; the sum of the map's values is independent
of Go's randomized iteration order. -/

/-- Go map assignment `m[k] = v`: overwrite if present, append if new. -/
def mapInsert (m : List (String × Nat)) (k : String) (v : Nat) :
    List (String × Nat) :=
  match m with
  | [] => [(k, v)]
  | (k2, v2) :: rest =>
      if k2 = k then (k, v) :: rest else (k2, v2) :: mapInsert rest k v

/-- Go map read `m[k]`. -/
def mapLookup (m : List (String × Nat)) (k : String) : Option Nat :=
  match m with
  | [] => none
  | (k2, v2) :: rest => if k2 = k then some v2 else mapLookup rest k

/-- Sum of a Go map's values. -/
def mapValuesSum (m : List (String × Nat)) : Nat :=
  (m.map Prod.snd).sum

/-- The loop of `distributeQuestionTypes`:
`distribution[questionType] = baseCount; if i < remainder { distribution[questionType]++ }`. -/
def distLoop (baseCount remainder : Nat) :
    Nat → List String → List (String × Nat) → List (String × Nat)
  | _, [], m => m
  | i, t :: ts, m =>
      distLoop baseCount remainder (i + 1) ts
        (mapInsert m t (if i < remainder then baseCount + 1 else baseCount))

/-- Embeds `distributeQuestionTypes`: `baseCount := total / len(types)`,
`remainder := total % len(types)`, then the indexed loop over `types`. -/
def distributeQuestionTypes (types : List String) (total : Nat) :
    List (String × Nat) :=
  distLoop (total / types.length) (total % types.length) 0 types []

/-- The distribution the loop produces when no key is ever overwritten. -/
def distSeg (baseCount remainder : Nat) :
    Nat → List String → List (String × Nat)
  | _, [] => []
  | i, t :: ts =>
      (t, if i < remainder then baseCount + 1 else baseCount) ::
        distSeg baseCount remainder (i + 1) ts

theorem mapInsert_fresh (m : List (String × Nat)) (k : String) (v : Nat)
    (h : mapLookup m k = none) : mapInsert m k v = m ++ [(k, v)] := by
  induction m with
  | nil => rfl
  | cons p rest ih =>
    obtain ⟨k2, v2⟩ := p
    rw [mapLookup] at h
    rw [mapInsert]
    by_cases hk : k2 = k
    · rw [if_pos hk] at h
      exact absurd h (by simp)
    · rw [if_neg hk] at h
      rw [if_neg hk, ih h]
      rfl

theorem mapLookup_append_none (m m2 : List (String × Nat)) (k : String)
    (h : mapLookup m k = none) :
    mapLookup (m ++ m2) k = mapLookup m2 k := by
  induction m with
  | nil => rfl
  | cons p rest ih =>
    obtain ⟨k2, v2⟩ := p
    rw [mapLookup] at h
    by_cases hk : k2 = k
    · rw [if_pos hk] at h
      exact absurd h (by simp)
    · rw [if_neg hk] at h
      rw [List.cons_append, mapLookup, if_neg hk]
      exact ih h

theorem distLoop_eq_distSeg (baseCount remainder : Nat) (ts : List String)
    (i : Nat) (m : List (String × Nat)) (hnd : ts.Nodup)
    (hfresh : ∀ t ∈ ts, mapLookup m t = none) :
    distLoop baseCount remainder i ts m =
      m ++ distSeg baseCount remainder i ts := by
  induction ts generalizing i m with
  | nil => simp [distLoop, distSeg]
  | cons t ts ih =>
    rw [distLoop, distSeg]
    rw [mapInsert_fresh m t _ (hfresh t (List.mem_cons_self t ts))]
    rw [ih (i + 1) _ (List.Nodup.of_cons hnd) ?_, List.append_assoc]
    · rfl
    · intro s hs
      have hst : t ≠ s := by
        intro he
        exact (List.nodup_cons.mp hnd).1 (he ▸ hs)
      rw [mapLookup_append_none _ _ _ (hfresh s (List.mem_cons_of_mem t hs))]
      simp [mapLookup, hst]

theorem distSeg_sum (baseCount remainder : Nat) (ts : List String)
    (i : Nat) :
    mapValuesSum (distSeg baseCount remainder i ts) + min remainder i =
      ts.length * baseCount + min remainder (i + ts.length) := by
  induction ts generalizing i with
  | nil => simp [distSeg, mapValuesSum]
  | cons t ts ih =>
    have h := ih (i + 1)
    rw [distSeg]
    by_cases hi : i < remainder
    · simp only [mapValuesSum, List.map_cons, List.sum_cons, if_pos hi] at *
      simp only [List.length_cons, Nat.succ_mul]
      omega
    · simp only [mapValuesSum, List.map_cons, List.sum_cons, if_neg hi] at *
      simp only [List.length_cons, Nat.succ_mul]
      omega

theorem distSeg_lookup (baseCount remainder : Nat) (ts : List String)
    (hnd : ts.Nodup) (i : Nat) (j : Nat) (hj : j < ts.length) :
    mapLookup (distSeg baseCount remainder i ts) (ts.get ⟨j, hj⟩) =
      some (if i + j < remainder then baseCount + 1 else baseCount) := by
  induction ts generalizing i j with
  | nil => exact absurd hj (by simp)
  | cons t ts ih =>
    cases j with
    | zero => simp [distSeg, mapLookup]
    | succ j2 =>
      have hj2 : j2 < ts.length := by simpa using hj
      have hne : t ≠ ts.get ⟨j2, hj2⟩ := by
        intro he
        exact (List.nodup_cons.mp hnd).1 (he ▸ List.get_mem ts j2 hj2)
      rw [distSeg]
      have hget : (t :: ts).get ⟨j2 + 1, hj⟩ = ts.get ⟨j2, hj2⟩ := rfl
      rw [hget, mapLookup, if_neg hne,
        ih (List.Nodup.of_cons hnd) (i + 1) j2 hj2]
      congr 1
      have : i + 1 + j2 = i + (j2 + 1) := by omega
      rw [this]

/-- **C1 (amended).** For a request whose list of question types is
non-empty and has pairwise-distinct entries and whose total is positive,
the distribution sums to exactly the total, each type receiving
`total / #types`, the first `total % #types` types in list order one
extra.  (With duplicated type entries the later loop iteration overwrites
the earlier map entry and the sum falls short, see the counterexample.) -/
theorem distributeQuestionTypes_distribution (types : List String)
    (total : Nat) (hnd : types.Nodup) (hne : types ≠ [])
    (_hpos : 0 < total) :
    mapValuesSum (distributeQuestionTypes types total) = total ∧
    ∀ j (hj : j < types.length),
      mapLookup (distributeQuestionTypes types total) (types.get ⟨j, hj⟩) =
        some (total / types.length +
          if j < total % types.length then 1 else 0) := by
  have hlen : 0 < types.length := List.length_pos.mpr hne
  have heq := distLoop_eq_distSeg (total / types.length)
    (total % types.length) types 0 [] hnd (fun t _ => rfl)
  constructor
  · rw [distributeQuestionTypes, heq, List.nil_append]
    have h := distSeg_sum (total / types.length) (total % types.length)
      types 0
    have hmod : total % types.length < types.length := Nat.mod_lt _ hlen
    have hdm := Nat.div_add_mod total types.length
    omega
  · intro j hj
    rw [distributeQuestionTypes, heq, List.nil_append,
      distSeg_lookup _ _ _ hnd 0 j hj]
    have hz : 0 + j = j := by omega
    rw [hz]
    by_cases hjr : j < total % types.length <;> simp [hjr]

/-- **C1 counterexample.** The claim quantifies over every non-empty type
list with positive total, but with a duplicated type entry the values of
the resulting map sum to 1, not to the requested total 3. -/
theorem distributeQuestionTypes_dup_counterexample :
    ("A" :: "A" :: []) ≠ ([] : List String) ∧ 0 < 3 ∧
    mapValuesSum (distributeQuestionTypes ["A", "A"] 3) ≠ 3 := by decide

/-- **C1 witness.** The spec's literal example: 10 questions over 3
distinct types sum to 10, the first type receiving `10 / 3 + 1 = 4`. -/
theorem distributeQuestionTypes_distribution_witness :
    mapValuesSum (distributeQuestionTypes
      ["Multiple Choice", "Fill in the Blank", "Short Answer"] 10) = 10 ∧
    mapLookup (distributeQuestionTypes
      ["Multiple Choice", "Fill in the Blank", "Short Answer"] 10)
      "Multiple Choice" = some 4 ∧
    mapLookup (distributeQuestionTypes
      ["Multiple Choice", "Fill in the Blank", "Short Answer"] 10)
      "Fill in the Blank" = some 3 :=
  ⟨(distributeQuestionTypes_distribution
      ["Multiple Choice", "Fill in the Blank", "Short Answer"] 10
      (by decide) (by decide) (by decide)).1,
   by decide, by decide⟩

/-! ## Substring occurrence

`∃ p q, s = p ++ n ++ q` formalises "the message names `n`"; the helpers
below make it checkable on concrete strings. -/

/-- `n` is an initial segment of `h`. -/
def leadsWith : List Char → List Char → Bool
  | [], _ => true
  | _ :: _, [] => false
  | a :: as, b :: bs => a == b && leadsWith as bs

/-- `n` occurs contiguously somewhere in `h`. -/
def hasSubstring (n : List Char) : List Char → Bool
  | [] => leadsWith n []
  | c :: t => leadsWith n (c :: t) || hasSubstring n t

theorem leadsWith_iff (n h : List Char) :
    leadsWith n h = true ↔ ∃ q, h = n ++ q := by
  induction n generalizing h with
  | nil => simp [leadsWith]
  | cons a as ih =>
    cases h with
    | nil => simp [leadsWith]
    | cons b bs =>
      rw [leadsWith, Bool.and_eq_true, beq_iff_eq, ih]
      constructor
      · rintro ⟨rfl, q, rfl⟩
        exact ⟨q, rfl⟩
      · rintro ⟨q, hq⟩
        obtain ⟨rfl, rfl⟩ : b = a ∧ bs = as ++ q := by
          simpa using hq
        exact ⟨rfl, q, rfl⟩

theorem hasSubstring_iff (n h : List Char) :
    hasSubstring n h = true ↔ ∃ p q, h = p ++ n ++ q := by
  induction h with
  | nil =>
    rw [hasSubstring, leadsWith_iff]
    constructor
    · rintro ⟨q, hq⟩
      exact ⟨[], q, by simpa using hq⟩
    · rintro ⟨p, q, hpq⟩
      have hp : p = [] ∧ n ++ q = [] := by
        simpa using hpq.symm
      exact ⟨q, by simp [hp.2]⟩
  | cons c t ih =>
    rw [hasSubstring, Bool.or_eq_true, leadsWith_iff, ih]
    constructor
    · rintro (⟨q, hq⟩ | ⟨p, q, hpq⟩)
      · exact ⟨[], q, by simpa using hq⟩
      · exact ⟨c :: p, q, by simp [hpq]⟩
    · rintro ⟨p, q, hpq⟩
      cases p with
      | nil => exact Or.inl ⟨q, by simpa using hpq⟩
      | cons p0 ps =>
        right
        have h2 : c = p0 ∧ t = ps ++ n ++ q := by
          simpa [List.append_assoc] using hpq
        exact ⟨ps, q, h2.2⟩

/-- Bridging `∃`-splits of strings to the executable check. -/
theorem strOccurs_iff (n s : String) :
    (∃ p q : String, s = p ++ n ++ q) ↔
      hasSubstring n.toList s.toList = true := by
  rw [hasSubstring_iff]
  constructor
  · rintro ⟨p, q, rfl⟩
    exact ⟨p.toList, q.toList, by simp [String.data_append]⟩
  · rintro ⟨p, q, hpq⟩
    refine ⟨String.mk p, String.mk q, ?_⟩
    apply String.ext
    simpa [String.data_append] using hpq

/-! ## Review request validation (review handler) -/

/-- Embeds the review handler's `GenerateCommentRequest`. -/
structure GenerateCommentRequest where
  Content : String
  UserLevel : String
  Requirement : String
  Category : String
  Language : String
deriving DecidableEq

def MIN_TOTAL_WORDS : Nat := 10

def MAX_TOTAL_WORDS : Nat := 1000

/-- ASCII model of Go `strings.ToUpper` (the level codes are ASCII),
character by character. -/
def goToUpper (s : String) : String := String.mk (s.toList.map Char.toUpper)

/-- ASCII model of Go `strings.ToLower` (the category keys are ASCII),
character by character. -/
def goToLower (s : String) : String := String.mk (s.toList.map Char.toLower)

/-- Embeds the `reviewEnglishLevels` map. -/
def reviewEnglishLevels : List (String × String) :=
  [("A1", "A1 - Beginner"), ("A2", "A2 - Elementary"),
   ("B1", "B1 - Intermediate"), ("B2", "B2 - Upper Intermediate"),
   ("C1", "C1 - Advanced"), ("C2", "C2 - Proficient")]

/-- Embeds the `writingCategories` map. -/
def writingCategories : List (String × String) :=
  [("essay", "Academic Essay"), ("letter", "Formal/Informal Letter"),
   ("report", "Report Writing"), ("article", "Article Writing"),
   ("story", "Creative Writing"), ("email", "Email Writing"),
   ("description", "Descriptive Writing"), ("opinion", "Opinion Writing")]

/-- Embeds `validateReviewRequest`: `some msg` is the returned error,
`none` is acceptance.  The content is trimmed first; the word-count bounds
are checked next; the proficiency code is checked only when `UserLevel` is
non-empty. -/
def validateReviewRequest (req : GenerateCommentRequest) : Option String :=
  let content := trimSpace req.Content
  if content = "" then some "nội dung bài viết không được để trống"
  else
    let wordCount := getTotalWords content
    if wordCount < MIN_TOTAL_WORDS then
      some ("bài viết phải dài tối thiểu " ++ toString MIN_TOTAL_WORDS ++ " từ")
    else if MAX_TOTAL_WORDS < wordCount then
      some ("bài viết không được dài hơn " ++ toString MAX_TOTAL_WORDS ++ " từ")
    else if req.UserLevel ≠ "" then
      match (reviewEnglishLevels.lookup (goToUpper req.UserLevel)) with
      | some _ => none
      | none => some "trình độ tiếng Anh không hợp lệ (A1, A2, B1, B2, C1, C2)"
    else none

/-- **C6 (amended).** A review whose trimmed content is non-empty and has
fewer than the minimum 10 words is rejected with a message naming "10";
one with more than the maximum 1000 words is rejected with a message
naming "1000".  (A request whose trimmed content is empty is also
rejected, but by the dedicated empty-content message, which names no
bound — see the counterexample.) -/
theorem validateReviewRequest_bounds (req : GenerateCommentRequest) :
    (trimSpace req.Content ≠ "" →
      getTotalWords (trimSpace req.Content) < MIN_TOTAL_WORDS →
      ∃ msg, validateReviewRequest req = some msg ∧
        ∃ p q, msg = p ++ "10" ++ q) ∧
    (MAX_TOTAL_WORDS < getTotalWords (trimSpace req.Content) →
      ∃ msg, validateReviewRequest req = some msg ∧
        ∃ p q, msg = p ++ "1000" ++ q) := by
  constructor
  · intro hne hlt
    refine ⟨"bài viết phải dài tối thiểu " ++ toString MIN_TOTAL_WORDS ++
      " từ", ?_, "bài viết phải dài tối thiểu ", " từ", by decide⟩
    rw [validateReviewRequest]
    simp only [if_neg hne, if_pos hlt]
  · intro hgt
    have hne : trimSpace req.Content ≠ "" := by
      intro he
      rw [he] at hgt
      exact absurd hgt (by decide)
    have hnlt : ¬ getTotalWords (trimSpace req.Content) < MIN_TOTAL_WORDS := by
      rw [MIN_TOTAL_WORDS]
      rw [MAX_TOTAL_WORDS] at hgt
      omega
    refine ⟨"bài viết không được dài hơn " ++ toString MAX_TOTAL_WORDS ++
      " từ", ?_, "bài viết không được dài hơn ", " từ", by decide⟩
    rw [validateReviewRequest]
    simp only [if_neg hne, if_neg hnlt, if_pos hgt]

/-- **C6 counterexample.** A request whose content is empty has word count
0 < 10, yet the validator's error is the dedicated empty-content message,
which does not name the bound "10". -/
theorem validateReviewRequest_empty_counterexample :
    getTotalWords (trimSpace
      (GenerateCommentRequest.mk "" "" "" "" "").Content) <
      MIN_TOTAL_WORDS ∧
    validateReviewRequest (GenerateCommentRequest.mk "" "" "" "" "") =
      some "nội dung bài viết không được để trống" ∧
    ¬∃ p q : String,
      "nội dung bài viết không được để trống" = p ++ "10" ++ q := by
  refine ⟨by decide, by decide, ?_⟩
  intro hex
  have h := (strOccurs_iff "10" "nội dung bài viết không được để trống").mp hex
  revert h
  decide

/-- **C6 witness.** The spec's literal example: a 5-word review is
rejected with a message naming "10". -/
theorem validateReviewRequest_bounds_witness :
    ∃ msg, validateReviewRequest
      (GenerateCommentRequest.mk "one two three four five" "" "" "" "") =
        some msg ∧ ∃ p q, msg = p ++ "10" ++ q :=
  (validateReviewRequest_bounds
    (GenerateCommentRequest.mk "one two three four five" "" "" "" "")).1
    (by decide) (by decide)

/-! ## Review prompt construction (`buildReviewPrompt`)

The `fmt.Sprintf` template is embedded verbatim as the literal segments
between the format verbs. -/

/-- Embeds the `userLevelDesc` computation: default "intermediate",
replaced by the mapped display name only for a non-empty known code. -/
def reviewUserLevelDesc (req : GenerateCommentRequest) : String :=
  if req.UserLevel = "" then "intermediate"
  else
    match reviewEnglishLevels.lookup (goToUpper req.UserLevel) with
    | some level => level
    | none => "intermediate"

/-- Embeds the `category` computation: default "general writing". -/
def reviewCategoryDesc (req : GenerateCommentRequest) : String :=
  if req.Category = "" then "general writing"
  else
    match writingCategories.lookup (goToLower req.Category) with
    | some cat => cat
    | none => "general writing"

/-- Embeds `responseLanguagePrompt`. -/
def responseLanguage (req : GenerateCommentRequest) : String :=
  if req.Language = "vi" then "Tiếng Việt" else "English"

def reviewPromptPart1 : String :=
  "You are an expert English teacher and IELTS examiner. Analyze the following English writing sample and provide a comprehensive review.\n\nWRITING SAMPLE TO ANALYZE:\n\""

def reviewPromptPart2 : String :=
  "\"\n\nCONTEXT INFORMATION:\n- Student\x27s declared level: "

def reviewPromptPart3 : String := "\n- Writing category: "

def reviewPromptPart4 : String := "\n- Specific requirement: "

def reviewPromptPart5 : String := "\n- Word count: "

def reviewPromptPart6 : String :=
  "\n\nANALYSIS REQUIREMENTS:\n1. Estimate the actual English level (A1-C2) based on the writing quality\n2. Score each criterion from 0-10:\n   - Grammar: Accuracy, complexity, range of structures\n   - Vocabulary: Range, accuracy, appropriateness\n   - Coherence: Logical flow, linking, organization\n   - Task Response: Meeting requirements, completeness\n   - Overall: Holistic impression\n\n3. Provide specific feedback covering:\n   - 3-5 strength points (what the student does well)\n   - 3-5 improvement areas (what needs work)\n   - 5-8 detailed suggestions with examples\n   - overall_feedback: Tổng nhận xét chung về bài viết (bắt buộc)\n\n4. If there are significant errors, provide a corrected version\n\nFORMATTING REQUIREMENTS:\nReturn ONLY valid JSON without markdown formatting.\nJSON phải có các trường sau (bắt buộc):\n- \"estimated_level\"\n- \"scores\" (bao gồm: \"grammar\", \"vocabulary\", \"coherence\", \"task_response\", \"overall\", tất cả đều là số từ 0 đến 10)\n- \"overall_feedback\"\n- \"strength_points\"\n- \"improvement_areas\"\n- \"suggestions\" (mảng các object, mỗi object gồm: \"category\", \"issue\", \"suggestion\", \"example\", \"priority\")\n- \"corrected_version\" (nếu có)\n\nVí dụ trường \"suggestions\":\n\"suggestions\": [\n  \x7b\n    \"category\": \"Grammar\",\n    \"issue\": \"Subject-verb agreement\",\n    \"suggestion\": \"Kiểm tra sự hòa hợp giữa chủ ngữ và động từ.\",\n    \"example\": \"Incorrect: \x27She go to school.\x27 Correct: \x27She goes to school.\x27\",\n    \"priority\": \"High\"\n  \x7d\n]\n\nNếu không có thông tin cho trường nào, vẫn phải trả về trường đó với giá trị hợp lệ (ví dụ: 0 cho điểm số, chuỗi rỗng cho text).\n\nIMPORTANT: Tất cả phản hồi (bao gồm nhận xét, điểm số, gợi ý, bản sửa lỗi) PHẢI được viết hoàn toàn bằng "

def reviewPromptPart7 : String := ".\n\nAnalyze the writing sample now:"

/-- Embeds `buildReviewPrompt`: the `fmt.Sprintf` call interleaving the
template segments with the request content, level description, category,
requirement, word count, and response language. -/
def buildReviewPrompt (req : GenerateCommentRequest) : String :=
  reviewPromptPart1 ++ req.Content ++ reviewPromptPart2 ++
  reviewUserLevelDesc req ++ reviewPromptPart3 ++ reviewCategoryDesc req ++
  reviewPromptPart4 ++ req.Requirement ++ reviewPromptPart5 ++
  toString (getTotalWords req.Content) ++ reviewPromptPart6 ++
  responseLanguage req ++ reviewPromptPart7

/-- **C10.** A request with empty `user_level` passes validation (given
content within bounds; the proficiency check only applies to non-empty
levels), and the generated prompt uses the default level description
"intermediate". -/
theorem emptyUserLevel_accepted_default_prompt (req : GenerateCommentRequest)
    (hlvl : req.UserLevel = "") (hne : trimSpace req.Content ≠ "")
    (hmin : MIN_TOTAL_WORDS ≤ getTotalWords (trimSpace req.Content))
    (hmax : getTotalWords (trimSpace req.Content) ≤ MAX_TOTAL_WORDS) :
    validateReviewRequest req = none ∧
    ∃ p q, buildReviewPrompt req = p ++ "intermediate" ++ q := by
  constructor
  · rw [validateReviewRequest]
    have h1 : ¬ getTotalWords (trimSpace req.Content) < MIN_TOTAL_WORDS := by
      omega
    have h2 : ¬ MAX_TOTAL_WORDS < getTotalWords (trimSpace req.Content) := by
      omega
    simp only [if_neg hne, if_neg h1, if_neg h2, hlvl]
    simp
  · refine ⟨reviewPromptPart1 ++ req.Content ++ reviewPromptPart2,
      reviewPromptPart3 ++ reviewCategoryDesc req ++ reviewPromptPart4 ++
      req.Requirement ++ reviewPromptPart5 ++
      toString (getTotalWords req.Content) ++ reviewPromptPart6 ++
      responseLanguage req ++ reviewPromptPart7, ?_⟩
    rw [buildReviewPrompt, reviewUserLevelDesc, if_pos hlvl]
    simp [String.append_assoc]

/-- **C10 witness.** A concrete 10-word request with empty level is
accepted and its prompt names "intermediate". -/
theorem emptyUserLevel_accepted_default_prompt_witness :
    validateReviewRequest (GenerateCommentRequest.mk
      "one two three four five six seven eight nine ten" "" "" "" "") =
      none ∧
    ∃ p q, buildReviewPrompt (GenerateCommentRequest.mk
      "one two three four five six seven eight nine ten" "" "" "" "") =
      p ++ "intermediate" ++ q :=
  emptyUserLevel_accepted_default_prompt
    (GenerateCommentRequest.mk
      "one two three four five six seven eight nine ten" "" "" "" "")
    rfl (by decide) (by decide) (by decide)

/-! ## Review response parsing (`parseGeminiReviewResponse`)

The upstream text is lexed by `encoding/json` into a JSON document; the
document is modelled by `Jx` (a text that is not valid JSON is a document
on which both unmarshal shapes fail, e.g. a bare `jstr`).  The strict
shape reads `suggestions` as a list of suggestion records, the loose
fallback shape reads it as a list of strings; all other fields are decoded
identically.  `encoding/json` struct decoding is modelled entry by entry
in document order: field names match case-insensitively (ASCII model of
the fold), a later duplicate key overwrites an earlier one, a `null`
value is a no-op, an absent field keeps the Go zero value, and a type
mismatch saves the error but decoding continues, the saved error failing
the whole `Unmarshal` at the end. -/

inductive Jx where
  | null
  | jbool (b : Bool)
  | jnum (q : ℚ)
  | jstr (s : String)
  | jarr (elems : List Jx)
  | jobj (fields : List (String × Jx))

/-- Embeds `ReviewCriteria` (float64 scores modelled as rationals). -/
structure ReviewCriteria where
  Grammar : ℚ
  Vocabulary : ℚ
  Coherence : ℚ
  TaskResponse : ℚ
  Overall : ℚ
deriving DecidableEq

/-- Embeds `ReviewSuggestion`. -/
structure ReviewSuggestion where
  Category : String
  Issue : String
  Suggestion : String
  Example : String
  Priority : String
deriving DecidableEq

/-- Embeds `GeminiReviewData`. -/
structure GeminiReviewData where
  EstimatedLevel : String
  Scores : ReviewCriteria
  OverallFeedback : String
  StrengthPoints : List String
  ImprovementAreas : List String
  Suggestions : List ReviewSuggestion
  CorrectedVersion : String
deriving DecidableEq

/-- Embeds the anonymous fallback struct whose `suggestions` field is
`[]string`. -/
structure FallbackReviewData where
  EstimatedLevel : String
  Scores : ReviewCriteria
  OverallFeedback : String
  StrengthPoints : List String
  ImprovementAreas : List String
  Suggestions : List String
  CorrectedVersion : String
deriving DecidableEq

/-- ASCII model of `encoding/json`'s field-name matching (exact, else
case-insensitive): the struct tags here are distinct lowercase ASCII
strings, so a key matches a tag exactly when its lower-casing equals the
tag. -/
def keyMatches (k : String) (tag : String) : Bool :=
  goToLower k == tag

/-- One `encoding/json` decoding step of an object entry into a
`ReviewSuggestion`: a matching key overwrites the field (so a later
duplicate key wins), `null` is a no-op, a type mismatch records the
error but decoding continues, unknown keys are ignored. -/
def sugStep (acc : Bool × ReviewSuggestion) (entry : String × Jx) :
    Bool × ReviewSuggestion :=
  let step : Bool × ReviewSuggestion :=
    if keyMatches entry.1 "category" then
      match entry.2 with
      | .null => (false, acc.2)
      | .jstr s => (false, { acc.2 with Category := s })
      | _ => (true, acc.2)
    else if keyMatches entry.1 "issue" then
      match entry.2 with
      | .null => (false, acc.2)
      | .jstr s => (false, { acc.2 with Issue := s })
      | _ => (true, acc.2)
    else if keyMatches entry.1 "suggestion" then
      match entry.2 with
      | .null => (false, acc.2)
      | .jstr s => (false, { acc.2 with Suggestion := s })
      | _ => (true, acc.2)
    else if keyMatches entry.1 "example" then
      match entry.2 with
      | .null => (false, acc.2)
      | .jstr s => (false, { acc.2 with Example := s })
      | _ => (true, acc.2)
    else if keyMatches entry.1 "priority" then
      match entry.2 with
      | .null => (false, acc.2)
      | .jstr s => (false, { acc.2 with Priority := s })
      | _ => (true, acc.2)
    else (false, acc.2)
  (acc.1 || step.1, step.2)

/-- Decode one `ReviewSuggestion` element: `null` keeps the zero record,
an object is decoded entry-by-entry in document order; any recorded error
fails the whole unmarshal. -/
def decodeSuggestion : Jx → Option ReviewSuggestion
  | .null => some ⟨"", "", "", "", ""⟩
  | .jobj fs =>
      let st := fs.foldl sugStep (false, ⟨"", "", "", "", ""⟩)
      if st.1 then none else some st.2
  | _ => none

/-- Decode the elements of a `[]ReviewSuggestion` value. -/
def decodeSugElems : List Jx → Option (List ReviewSuggestion)
  | [] => some []
  | x :: rest => do
      let s ← decodeSuggestion x
      let l ← decodeSugElems rest
      some (s :: l)

/-- Decode the elements of a `[]string` value: `null` leaves the zero
element, anything other than a string errors. -/
def decodeStrElems : List Jx → Option (List String)
  | [] => some []
  | .null :: rest => (decodeStrElems rest).map (fun l => "" :: l)
  | .jstr s :: rest => (decodeStrElems rest).map (fun l => s :: l)
  | _ => none

/-- One decoding step of an object entry into `ReviewCriteria`, with the
same duplicate-key, `null` and error semantics as `sugStep`. -/
def scoresStep (acc : Bool × ReviewCriteria) (entry : String × Jx) :
    Bool × ReviewCriteria :=
  let step : Bool × ReviewCriteria :=
    if keyMatches entry.1 "grammar" then
      match entry.2 with
      | .null => (false, acc.2)
      | .jnum q => (false, { acc.2 with Grammar := q })
      | _ => (true, acc.2)
    else if keyMatches entry.1 "vocabulary" then
      match entry.2 with
      | .null => (false, acc.2)
      | .jnum q => (false, { acc.2 with Vocabulary := q })
      | _ => (true, acc.2)
    else if keyMatches entry.1 "coherence" then
      match entry.2 with
      | .null => (false, acc.2)
      | .jnum q => (false, { acc.2 with Coherence := q })
      | _ => (true, acc.2)
    else if keyMatches entry.1 "task_response" then
      match entry.2 with
      | .null => (false, acc.2)
      | .jnum q => (false, { acc.2 with TaskResponse := q })
      | _ => (true, acc.2)
    else if keyMatches entry.1 "overall" then
      match entry.2 with
      | .null => (false, acc.2)
      | .jnum q => (false, { acc.2 with Overall := q })
      | _ => (true, acc.2)
    else (false, acc.2)
  (acc.1 || step.1, step.2)

/-- The fields the strict and the fallback shape decode identically. -/
structure ReviewCommon where
  EstimatedLevel : String
  Scores : ReviewCriteria
  OverallFeedback : String
  StrengthPoints : List String
  ImprovementAreas : List String
  CorrectedVersion : String
deriving DecidableEq

/-- One decoding step of an object entry into the fields both shapes
share.  A slice-typed field whose array has a bad element records the
error (the partially-filled slice is unobservable, since any recorded
error fails the whole unmarshal); a nested `scores` object decodes into
the current value, its errors joining the outer error flag. -/
def commonStep (acc : Bool × ReviewCommon) (entry : String × Jx) :
    Bool × ReviewCommon :=
  let step : Bool × ReviewCommon :=
    if keyMatches entry.1 "estimated_level" then
      match entry.2 with
      | .null => (false, acc.2)
      | .jstr s => (false, { acc.2 with EstimatedLevel := s })
      | _ => (true, acc.2)
    else if keyMatches entry.1 "scores" then
      match entry.2 with
      | .null => (false, acc.2)
      | .jobj gs =>
          let sres := gs.foldl scoresStep (false, acc.2.Scores)
          (sres.1, { acc.2 with Scores := sres.2 })
      | _ => (true, acc.2)
    else if keyMatches entry.1 "overall_feedback" then
      match entry.2 with
      | .null => (false, acc.2)
      | .jstr s => (false, { acc.2 with OverallFeedback := s })
      | _ => (true, acc.2)
    else if keyMatches entry.1 "strength_points" then
      match entry.2 with
      | .null => (false, acc.2)
      | .jarr xs =>
          match decodeStrElems xs with
          | some l => (false, { acc.2 with StrengthPoints := l })
          | none => (true, acc.2)
      | _ => (true, acc.2)
    else if keyMatches entry.1 "improvement_areas" then
      match entry.2 with
      | .null => (false, acc.2)
      | .jarr xs =>
          match decodeStrElems xs with
          | some l => (false, { acc.2 with ImprovementAreas := l })
          | none => (true, acc.2)
      | _ => (true, acc.2)
    else if keyMatches entry.1 "corrected_version" then
      match entry.2 with
      | .null => (false, acc.2)
      | .jstr s => (false, { acc.2 with CorrectedVersion := s })
      | _ => (true, acc.2)
    else (false, acc.2)
  (acc.1 || step.1, step.2)

/-- One decoding step into the strict shape: the `suggestions` entries go
to the `[]ReviewSuggestion` field, every other entry to the shared
fields. -/
def strictStep (acc : Bool × ReviewCommon × List ReviewSuggestion)
    (entry : String × Jx) : Bool × ReviewCommon × List ReviewSuggestion :=
  if keyMatches entry.1 "suggestions" then
    match entry.2 with
    | .null => acc
    | .jarr xs =>
        match decodeSugElems xs with
        | some l => (acc.1, acc.2.1, l)
        | none => (true, acc.2.1, acc.2.2)
    | _ => (true, acc.2.1, acc.2.2)
  else
    let cs := commonStep (acc.1, acc.2.1) entry
    (cs.1, cs.2, acc.2.2)

/-- One decoding step into the loose shape: `suggestions` entries go to
the `[]string` field. -/
def looseStep (acc : Bool × ReviewCommon × List String)
    (entry : String × Jx) : Bool × ReviewCommon × List String :=
  if keyMatches entry.1 "suggestions" then
    match entry.2 with
    | .null => acc
    | .jarr xs =>
        match decodeStrElems xs with
        | some l => (acc.1, acc.2.1, l)
        | none => (true, acc.2.1, acc.2.2)
    | _ => (true, acc.2.1, acc.2.2)
  else
    let cs := commonStep (acc.1, acc.2.1) entry
    (cs.1, cs.2, acc.2.2)

/-- Embeds `json.Unmarshal` into `GeminiReviewData` (the strict shape):
a top-level `null` leaves the zero struct; an object is decoded entry by
entry in document order, a later duplicate key overwriting an earlier
one; `Unmarshal` fails iff some entry recorded an error; anything else
errors. -/
def strictUnmarshalReview : Jx → Option GeminiReviewData
  | .null => some ⟨"", ⟨0, 0, 0, 0, 0⟩, "", [], [], [], ""⟩
  | .jobj fs =>
      let st := fs.foldl strictStep
        (false, ⟨"", ⟨0, 0, 0, 0, 0⟩, "", [], [], ""⟩, [])
      if st.1 then none
      else some ⟨st.2.1.EstimatedLevel, st.2.1.Scores,
        st.2.1.OverallFeedback, st.2.1.StrengthPoints,
        st.2.1.ImprovementAreas, st.2.2, st.2.1.CorrectedVersion⟩
  | _ => none

/-- Embeds `json.Unmarshal` into the fallback struct (the loose shape,
`suggestions` as `[]string`), with the same entry-by-entry semantics. -/
def looseUnmarshalReview : Jx → Option FallbackReviewData
  | .null => some ⟨"", ⟨0, 0, 0, 0, 0⟩, "", [], [], [], ""⟩
  | .jobj fs =>
      let st := fs.foldl looseStep
        (false, ⟨"", ⟨0, 0, 0, 0, 0⟩, "", [], [], ""⟩, [])
      if st.1 then none
      else some ⟨st.2.1.EstimatedLevel, st.2.1.Scores,
        st.2.1.OverallFeedback, st.2.1.StrengthPoints,
        st.2.1.ImprovementAreas, st.2.2, st.2.1.CorrectedVersion⟩
  | _ => none

/-- The number of object entries whose key matches the `suggestions`
field. -/
def suggestionsKeyCount : Jx → Nat
  | .jobj fs => (fs.filter (fun en => keyMatches en.1 "suggestions")).length
  | _ => 0

/-- The single default suggestion synthesized for an empty list. -/
def defaultSuggestion : ReviewSuggestion :=
  ⟨"General", "Continue practicing",
   "Keep writing regularly to improve your skills",
   "Practice different types of writing", "Medium"⟩

/-- Embeds the fallback conversion `[]string → []ReviewSuggestion`: each
string becomes a record with only the `Suggestion` field set. -/
def fallbackToReviewData (fb : FallbackReviewData) : GeminiReviewData :=
  ⟨fb.EstimatedLevel, fb.Scores, fb.OverallFeedback, fb.StrengthPoints,
   fb.ImprovementAreas,
   fb.Suggestions.map (fun s => ⟨"", "", s, "", ""⟩),
   fb.CorrectedVersion⟩

/-- Embeds `parseGeminiReviewResponse`: try the strict shape; on failure
try the loose shape and return its conversion immediately; on strict
success default the estimated level, require a non-empty overall
feedback, and replace an empty suggestions list by the single default. -/
def parseGeminiReviewResponse (j : Jx) : Option GeminiReviewData :=
  match strictUnmarshalReview j with
  | some reviewData =>
      let d1 :=
        if reviewData.EstimatedLevel = "" then
          { reviewData with EstimatedLevel := "B1" }
        else reviewData
      if d1.OverallFeedback = "" then none
      else if d1.Suggestions = [] then
        some { d1 with Suggestions := [defaultSuggestion] }
      else some d1
  | none =>
      match looseUnmarshalReview j with
      | some fallback => some (fallbackToReviewData fallback)
      | none => none

theorem decodeStrElems_length (xs : List Jx) (l : List String)
    (h : decodeStrElems xs = some l) : l.length = xs.length := by
  induction xs generalizing l with
  | nil =>
    simp only [decodeStrElems, Option.some.injEq] at h
    simp [← h]
  | cons x rest ih =>
    cases x with
    | null =>
      simp only [decodeStrElems, Option.map_eq_some'] at h
      obtain ⟨l2, hl2, rfl⟩ := h
      simp [ih l2 hl2]
    | jstr s =>
      simp only [decodeStrElems, Option.map_eq_some'] at h
      obtain ⟨l2, hl2, rfl⟩ := h
      simp [ih l2 hl2]
    | jbool b => exact absurd h (by simp [decodeStrElems])
    | jnum q => exact absurd h (by simp [decodeStrElems])
    | jarr es => exact absurd h (by simp [decodeStrElems])
    | jobj fs => exact absurd h (by simp [decodeStrElems])

theorem looseStep_err_true (e : Bool) (c : ReviewCommon) (sl : List String)
    (en : String × Jx) (h : e = true) :
    (looseStep (e, c, sl) en).1 = true := by
  subst h
  rw [looseStep]
  split
  · split
    · rfl
    · split
      · rfl
      · rfl
    · rfl
  · simp [commonStep]

theorem foldl_looseStep_err (fs : List (String × Jx))
    (st : Bool × ReviewCommon × List String) (h : st.1 = true) :
    (fs.foldl looseStep st).1 = true := by
  induction fs generalizing st with
  | nil => simpa using h
  | cons en rest ih =>
    rw [List.foldl_cons]
    obtain ⟨e, c, sl⟩ := st
    exact ih _ (looseStep_err_true e c sl en (by simpa using h))

theorem strictStep_not_sug (e : Bool) (c : ReviewCommon)
    (sg : List ReviewSuggestion) (en : String × Jx)
    (hk : keyMatches en.1 "suggestions" = false) :
    strictStep (e, c, sg) en =
      ((commonStep (e, c) en).1, (commonStep (e, c) en).2, sg) := by
  rw [strictStep, if_neg (by simp [hk])]

theorem looseStep_not_sug (e : Bool) (c : ReviewCommon)
    (sl : List String) (en : String × Jx)
    (hk : keyMatches en.1 "suggestions" = false) :
    looseStep (e, c, sl) en =
      ((commonStep (e, c) en).1, (commonStep (e, c) en).2, sl) := by
  rw [looseStep, if_neg (by simp [hk])]

theorem foldl_strictStep_no_sug (fs : List (String × Jx)) (e : Bool)
    (c : ReviewCommon) (sg : List ReviewSuggestion)
    (h : ∀ en ∈ fs, keyMatches en.1 "suggestions" = false) :
    fs.foldl strictStep (e, c, sg) =
      ((fs.foldl commonStep (e, c)).1, (fs.foldl commonStep (e, c)).2, sg) := by
  induction fs generalizing e c with
  | nil => rfl
  | cons en rest ih =>
    rw [List.foldl_cons, List.foldl_cons,
      strictStep_not_sug e c sg en (h en (List.mem_cons_self en rest))]
    exact ih _ _ fun x hx => h x (List.mem_cons_of_mem en hx)

theorem foldl_looseStep_no_sug (fs : List (String × Jx)) (e : Bool)
    (c : ReviewCommon) (sl : List String)
    (h : ∀ en ∈ fs, keyMatches en.1 "suggestions" = false) :
    fs.foldl looseStep (e, c, sl) =
      ((fs.foldl commonStep (e, c)).1, (fs.foldl commonStep (e, c)).2, sl) := by
  induction fs generalizing e c with
  | nil => rfl
  | cons en rest ih =>
    rw [List.foldl_cons, List.foldl_cons,
      looseStep_not_sug e c sl en (h en (List.mem_cons_self en rest))]
    exact ih _ _ fun x hx => h x (List.mem_cons_of_mem en hx)

/-- Core divergence argument: over an object with at most one entry for
the `suggestions` field, if the strict fold errors and the loose fold
does not, the loose fold's final suggestions list is non-empty (both
folds run the identical `commonStep` everywhere else, so the divergence
is a non-empty `suggestions` array whose elements decode as strings but
not as suggestion records). -/
theorem divergence_fold (fs : List (String × Jx)) (e : Bool)
    (c : ReviewCommon) (sg : List ReviewSuggestion) (sl : List String)
    (hcount : (fs.filter (fun en => keyMatches en.1 "suggestions")).length ≤ 1)
    (hS : (fs.foldl strictStep (e, c, sg)).1 = true)
    (hL : (fs.foldl looseStep (e, c, sl)).1 = false) :
    (fs.foldl looseStep (e, c, sl)).2.2 ≠ [] := by
  induction fs generalizing e c sg sl with
  | nil => simp_all
  | cons en rest ih =>
    rw [List.foldl_cons] at hS hL ⊢
    cases hk : keyMatches en.1 "suggestions" with
    | false =>
      rw [strictStep_not_sug e c sg en hk] at hS
      rw [looseStep_not_sug e c sl en hk] at hL ⊢
      refine ih _ _ _ _ ?_ hS hL
      simpa [List.filter_cons, hk] using hcount
    | true =>
      have hrest : ∀ x ∈ rest, keyMatches x.1 "suggestions" = false := by
        have h0 : (rest.filter
            (fun en => keyMatches en.1 "suggestions")).length = 0 := by
          rw [List.filter_cons, if_pos (by simp [hk])] at hcount
          simp only [List.length_cons] at hcount
          omega
        intro x hx
        have := List.filter_eq_nil_iff.mp (List.length_eq_zero.mp h0) x hx
        simpa using this
      have hc0 : (rest.filter
          (fun en => keyMatches en.1 "suggestions")).length ≤ 1 := by
        rw [List.filter_eq_nil_iff.mpr (by intro x hx; simp [hrest x hx])]
        simp
      cases hv : en.2 with
      | null =>
        have hS2 : strictStep (e, c, sg) en = (e, c, sg) := by
          rw [strictStep, if_pos hk, hv]
        have hL2 : looseStep (e, c, sl) en = (e, c, sl) := by
          rw [looseStep, if_pos hk, hv]
        rw [hS2] at hS
        rw [hL2] at hL ⊢
        exact ih _ _ _ _ hc0 hS hL
      | jarr xs =>
        cases hd2 : decodeStrElems xs with
        | none =>
          have hL2 : looseStep (e, c, sl) en = (true, c, sl) := by
            rw [looseStep, if_pos hk, hv]
            simp [hd2]
          rw [hL2] at hL
          exact absurd hL (by simp [foldl_looseStep_err rest (true, c, sl) rfl])
        | some l2 =>
          have hL2 : looseStep (e, c, sl) en = (e, c, l2) := by
            rw [looseStep, if_pos hk, hv]
            simp [hd2]
          rw [hL2] at hL ⊢
          cases hd : decodeSugElems xs with
          | some l1 =>
            have hS2 : strictStep (e, c, sg) en = (e, c, l1) := by
              rw [strictStep, if_pos hk, hv]
              simp [hd]
            rw [hS2] at hS
            rw [foldl_strictStep_no_sug rest e c l1 hrest] at hS
            rw [foldl_looseStep_no_sug rest e c l2 hrest] at hL
            simp only [] at hS hL
            rw [hS] at hL
            exact absurd hL (by simp)
          | none =>
            rw [foldl_looseStep_no_sug rest e c l2 hrest]
            show l2 ≠ []
            cases xs with
            | nil => exact absurd hd (by simp [decodeSugElems])
            | cons x xr =>
              have hlen := decodeStrElems_length _ _ hd2
              intro he
              rw [he] at hlen
              simp at hlen
      | jbool b =>
        have hL2 : looseStep (e, c, sl) en = (true, c, sl) := by
          rw [looseStep, if_pos hk, hv]
        rw [hL2] at hL
        exact absurd hL (by simp [foldl_looseStep_err rest (true, c, sl) rfl])
      | jnum q =>
        have hL2 : looseStep (e, c, sl) en = (true, c, sl) := by
          rw [looseStep, if_pos hk, hv]
        rw [hL2] at hL
        exact absurd hL (by simp [foldl_looseStep_err rest (true, c, sl) rfl])
      | jstr s =>
        have hL2 : looseStep (e, c, sl) en = (true, c, sl) := by
          rw [looseStep, if_pos hk, hv]
        rw [hL2] at hL
        exact absurd hL (by simp [foldl_looseStep_err rest (true, c, sl) rfl])
      | jobj o =>
        have hL2 : looseStep (e, c, sl) en = (true, c, sl) := by
          rw [looseStep, if_pos hk, hv]
        rw [hL2] at hL
        exact absurd hL (by simp [foldl_looseStep_err rest (true, c, sl) rfl])

/-- If the strict shape fails but the loose shape succeeds on a document
with at most one `suggestions` entry, the decoded string-suggestion list
cannot be empty.  (With duplicate `suggestions` keys this fails: see the
counterexample on `parseGeminiReviewResponse`.) -/
theorem loose_suggestions_nonempty (j : Jx) (fb : FallbackReviewData)
    (hdup : suggestionsKeyCount j ≤ 1)
    (hn : strictUnmarshalReview j = none)
    (hl : looseUnmarshalReview j = some fb) : fb.Suggestions ≠ [] := by
  match j with
  | .null => exact absurd hn (by simp [strictUnmarshalReview])
  | .jbool b => exact absurd hl (by simp [looseUnmarshalReview])
  | .jnum q => exact absurd hl (by simp [looseUnmarshalReview])
  | .jstr s => exact absurd hl (by simp [looseUnmarshalReview])
  | .jarr es => exact absurd hl (by simp [looseUnmarshalReview])
  | .jobj fs =>
    rw [strictUnmarshalReview] at hn
    rw [looseUnmarshalReview] at hl
    rw [suggestionsKeyCount] at hdup
    by_cases hse : (fs.foldl strictStep
        (false, ⟨"", ⟨0, 0, 0, 0, 0⟩, "", [], [], ""⟩, [])).1 = true
    case neg =>
      rw [if_neg hse] at hn
      exact absurd hn (by simp)
    case pos =>
      by_cases hle : (fs.foldl looseStep
          (false, ⟨"", ⟨0, 0, 0, 0, 0⟩, "", [], [], ""⟩, [])).1 = true
      case pos =>
        rw [if_pos hle] at hl
        exact absurd hl (by simp)
      case neg =>
        rw [if_neg hle] at hl
        simp only [Option.some.injEq] at hl
        have hfb : fb.Suggestions = (fs.foldl looseStep
            (false, ⟨"", ⟨0, 0, 0, 0, 0⟩, "", [], [], ""⟩, [])).2.2 := by
          rw [← hl]
        rw [hfb]
        exact divergence_fold fs false _ [] [] hdup hse
          (Bool.eq_false_iff.mpr hle)

/-- **C2 (amended).** For every upstream document in which at most one
object entry matches the `suggestions` field, whenever
`parseGeminiReviewResponse` succeeds the returned suggestions list is
non-empty, and whenever the successfully parsed (strict-shape)
suggestions list was empty the result holds exactly the single
synthesized default entry.  (With duplicate `suggestions` keys the loose
fallback can succeed with an empty final suggestions slice while the
strict shape fails, and the parser then returns an empty list: see the
counterexample.) -/
theorem parseGeminiReviewResponse_suggestions_nonempty (j : Jx)
    (d : GeminiReviewData) (hdup : suggestionsKeyCount j ≤ 1)
    (h : parseGeminiReviewResponse j = some d) :
    d.Suggestions ≠ [] ∧
    (∀ d0, strictUnmarshalReview j = some d0 → d0.Suggestions = [] →
      d.Suggestions = [defaultSuggestion]) := by
  rw [parseGeminiReviewResponse] at h
  cases hs : strictUnmarshalReview j with
  | some reviewData =>
    rw [hs] at h
    dsimp only at h
    by_cases hlvl : reviewData.EstimatedLevel = ""
    all_goals
      first
      | rw [if_pos hlvl] at h
      | rw [if_neg hlvl] at h
    all_goals
      split at h
      · exact absurd h (by simp)
      · split at h
        · injection h with h2
          subst h2
          refine ⟨by simp, ?_⟩
          intro d0 h0 hemp0
          rfl
        · rename_i hemp
          injection h with h2
          subst h2
          refine ⟨by simpa using hemp, ?_⟩
          intro d0 h0 hemp0
          obtain rfl : reviewData = d0 := by simpa using h0
          exact absurd hemp0 (by simpa using hemp)
  | none =>
    rw [hs] at h
    cases hl : looseUnmarshalReview j with
    | none =>
      rw [hl] at h
      exact absurd h (by simp)
    | some fb =>
      rw [hl] at h
      simp only [Option.some.injEq] at h
      have hne := loose_suggestions_nonempty j fb hdup hs hl
      constructor
      · rw [← h, fallbackToReviewData]
        simpa using hne
      · intro d0 h0 _
        exact absurd h0 (by simp)

/-- **C2 counterexample.** The original claim quantifies over every
successfully parsed upstream text, but on a document with duplicate
`suggestions` keys — first a string array, then an empty array — the
strict shape records an error on the string element while the loose
shape succeeds with the last duplicate's empty slice, so the parser
returns successfully with an empty suggestions list and no synthesized
default. -/
theorem parseGeminiReviewResponse_dup_counterexample :
    parseGeminiReviewResponse (Jx.jobj
      [("overall_feedback", Jx.jstr "ok"),
       ("suggestions", Jx.jarr [Jx.jstr "s"]),
       ("suggestions", Jx.jarr [])]) =
      some ⟨"", ⟨0, 0, 0, 0, 0⟩, "ok", [], [], [], ""⟩ ∧
    (⟨"", ⟨0, 0, 0, 0, 0⟩, "ok", [], [], [], ""⟩ :
      GeminiReviewData).Suggestions = [] :=
  ⟨by decide, rfl⟩

/-- **C2 witness.** A strict-shape document with non-empty feedback and an
absent suggestions field parses to exactly the single default entry. -/
theorem parseGeminiReviewResponse_suggestions_nonempty_witness :
    parseGeminiReviewResponse
      (Jx.jobj [("overall_feedback", Jx.jstr "good")]) =
      some ⟨"B1", ⟨0, 0, 0, 0, 0⟩, "good", [], [], [defaultSuggestion], ""⟩ ∧
    (⟨"B1", ⟨0, 0, 0, 0, 0⟩, "good", [], [], [defaultSuggestion], ""⟩ :
      GeminiReviewData).Suggestions ≠ [] ∧
    (⟨"B1", ⟨0, 0, 0, 0, 0⟩, "good", [], [], [defaultSuggestion], ""⟩ :
      GeminiReviewData).Suggestions = [defaultSuggestion] := by
  have hp : parseGeminiReviewResponse
      (Jx.jobj [("overall_feedback", Jx.jstr "good")]) =
      some ⟨"B1", ⟨0, 0, 0, 0, 0⟩, "good", [], [], [defaultSuggestion], ""⟩ := by
    decide
  refine ⟨hp,
    (parseGeminiReviewResponse_suggestions_nonempty _ _ (by decide) hp).1,
    (parseGeminiReviewResponse_suggestions_nonempty _ _ (by decide) hp).2
      ⟨"", ⟨0, 0, 0, 0, 0⟩, "good", [], [], [], ""⟩ (by decide) rfl⟩

end EngPal
